import Mathlib

/-!
Verification of the transit network graph assembler (housing_nyc/transit.py,
class GtfsGraph) against its natural-language specification.

The Python code is shallowly embedded: pandas DataFrames become lists of
records, float weights become rationals, and the Python failure modes are
explicit. An attribute that `__init__` never assigns is modelled as an
`Option` field holding `none` (reading it raises `PyErr.attributeError`,
exactly as Python raises `AttributeError` on a missing instance attribute);
`pd.concat([])` raises `PyErr.valueError`; `Index.get_loc` on a missing key
raises `PyErr.keyError`; reading the unbound local `parent_station` raises
`PyErr.nameError`; `s.split(sep)[1]` on a string without the separator raises
`PyErr.indexError`. The `while` loop of `_build_intratransfer_edges` is run
on fuel one larger than the working set (every productive iteration removes
at least the pivot node, so every terminating run fits); `Outcome.diverge`
marks runs that exhaust the fuel without emptying the working set.
-/

/-- The Python exceptions the embedded code can raise. -/
inductive PyErr : Type where
  | attributeError : String → PyErr
  | nameError : String → PyErr
  | valueError : String → PyErr
  | keyError : String → PyErr
  | typeError : String → PyErr
  | indexError : String → PyErr
deriving DecidableEq, Repr

/-- Result of running a loop on fuel: a value, a raised exception, or a run
that never terminates (the fuel ran out while the loop made no progress). -/
inductive Outcome (α : Type) : Type where
  | ok : α → Outcome α
  | exn : PyErr → Outcome α
  | diverge : Outcome α
deriving DecidableEq, Repr

/-- One row of the transit node table: its index entry (`node_id`) and the
columns the assembler reads (`parent_station`, which pandas may hold as NaN,
and `unique_agency_id`). -/
structure Node where
  node_id : String
  parent_station : Option String
  unique_agency_id : String
deriving DecidableEq, Repr

/-- One row of the feed's transfer-rule table (transfers.txt). -/
structure TransferRule where
  from_stop_id : String
  to_stop_id : String
  min_transfer_time : ℚ
deriving DecidableEq, Repr

/-- One row of the scheduled-edge table, as read by the wait-time
estimator. -/
structure SEdge where
  node_id_from : String
  node_id_to : String
  weight : ℚ
deriving DecidableEq, Repr

/-- One synthesized transfer-edge row, with the exact columns `_permuted_edges`
writes, in order. -/
structure TEdge where
  node_id_from : String
  node_id_to : String
  weight : ℚ
  unique_agency_id : String
  route_type : String
  net_type : String
deriving DecidableEq, Repr

/-- `itertools.permutations(l, 2)`: every ordered pair of entries at distinct
positions, pairs grouped by the position of their first component.
`perm2Go pre post` pairs each element of `post` with every other element,
`pre` holding the elements already passed. -/
def perm2Go : List α → List α → List (α × α)
  | _, [] => []
  | pre, a :: post => (pre ++ post).map (fun b => (a, b)) ++ perm2Go (pre ++ [a]) post

/-- `itertools.permutations(l, 2)` as used by the transfer-edge builders. -/
def perm2 (l : List α) : List (α × α) :=
  perm2Go [] l

/-- Split a character list at every occurrence of `c` (the groups between
separators, like Python `s.split(c)` for a one-character separator). -/
def splitCharAux (c : Char) : List Char → List (List Char)
  | [] => [[]]
  | a :: rest =>
    if a = c then [] :: splitCharAux c rest
    else
      match splitCharAux c rest with
      | [] => [[a]]
      | g :: gs => (a :: g) :: gs

/-- Python `s.split("_")`. -/
def splitUnderscore (s : String) : List String :=
  (splitCharAux '_' s.data).map (fun l => ⟨l⟩)

/-- Python `"_".join(parts)`. -/
def joinUnderscore : List String → String
  | [] => ""
  | [x] => x
  | x :: rest => x ++ "_" ++ joinUnderscore rest

/-- Python `s.split("_", 1)`: split at the first underscore only. -/
def pySplit1 (s : String) : List String :=
  match splitUnderscore s with
  | [] => [s]
  | [p] => [p]
  | p :: rest => [p, joinUnderscore rest]

/-- Python `s.split("_", 2)`: split at the first two underscores only. -/
def pySplit2 (s : String) : List String :=
  match splitUnderscore s with
  | p0 :: p1 :: p2 :: rest => [p0, p1, joinUnderscore (p2 :: rest)]
  | l => l

/-- Whether `p` is an initial segment of the second list. -/
def leadMatch : List Char → List Char → Bool
  | [], _ => true
  | _ :: _, [] => false
  | p :: ps, a :: rest => p = a && leadMatch ps rest

/-- One pass of Python `s.replace(pat, rep)` over a character list:
leftmost, non-overlapping. The fuel is the list length; every step consumes
at least one character, so the fuel never runs out on the call below. -/
def replaceFuel (pat rep : List Char) : Nat → List Char → List Char
  | _, [] => []
  | 0, l => l
  | fuel + 1, a :: rest =>
    if leadMatch pat (a :: rest) then
      rep ++ replaceFuel pat rep fuel ((a :: rest).drop pat.length)
    else
      a :: replaceFuel pat rep fuel rest

/-- Python `s.replace(pat, rep)` for the non-empty patterns the canonicalizer
uses (an agency identifier); the empty pattern leaves `s` unchanged. -/
def pyReplace (s pat rep : String) : String :=
  if pat.data = [] then s
  else ⟨replaceFuel pat.data rep.data s.data.length s.data⟩

/-- `node_id.split("_", 1)[1]`, the route suffix the builders compare; `none`
when the identifier has no underscore (Python raises IndexError there). -/
def routeSuffixOpt (s : String) : Option String :=
  (pySplit1 s).get? 1

/-- The route suffix with a default, used only to state weights of runs in
which every suffix is defined. -/
def routeSuffixD (s : String) : String :=
  (routeSuffixOpt s).getD ""

/-- `transfer["min_transfer_time"][transfer["from_stop_id"] == parent_station]`
followed by `.iloc[0]` when non-empty: the first matching rule's minimum
transfer time. -/
def lookupMtt (transfer : List TransferRule) (p : String) : Option ℚ :=
  ((transfer.filter (fun r => decide (r.from_stop_id = p))).head?).map TransferRule.min_transfer_time

/-- `child_station`: the index entries of all nodes of the working set whose
`parent_station` equals `p`. -/
def groupIds (p : String) (work : List Node) : List String :=
  (work.filter (fun n => decide (n.parent_station = some p))).map Node.node_id

/-- The child stations relevant to one inter-station transfer rule: nodes
whose parent is the rule's `from_stop_id` or its `to_stop_id`. -/
def childrenOf (nodes : List Node) (r : TransferRule) : List String :=
  (nodes.filter (fun n =>
    decide (n.parent_station = some r.from_stop_id ∨ n.parent_station = some r.to_stop_id))).map
    Node.node_id

/-- `_permuted_edges(self, permute, transfer_transport_time)`. The instance
attributes `self.agency` and `self.net_type` are read while building the first
row, so a non-empty `permute` with either attribute unassigned raises
`AttributeError`; an empty `permute` makes `pd.concat` of an empty list raise
`ValueError` first. -/
def permutedEdges (agency net_type : Option String) (permute : List (String × String))
    (wts : List ℚ) : Except PyErr (List TEdge) :=
  if permute.isEmpty then Except.error (PyErr.valueError "No objects to concatenate")
  else
    match agency with
    | none => Except.error (PyErr.attributeError "agency")
    | some ag =>
      match net_type with
      | none => Except.error (PyErr.attributeError "net_type")
      | some nt =>
        Except.ok ((permute.zip wts).map (fun pr =>
          { node_id_from := pr.1.1, node_id_to := pr.1.2, weight := pr.2,
            unique_agency_id := ag, route_type := "transfer", net_type := nt }))

/-- The rows `_permuted_edges` builds from a permutation list once both
instance attributes are present, with the weight of each ordered pair given by
`w`: the normal-form of a successful `permutedEdges` call. -/
def chunkEdges (ag nt : String) (w : String × String → ℚ)
    (permute : List (String × String)) : List TEdge :=
  permute.map (fun pr =>
    { node_id_from := pr.1, node_id_to := pr.2, weight := w pr,
      unique_agency_id := ag, route_type := "transfer", net_type := nt })

/-- A Python list comprehension whose body may raise: the first raise wins. -/
def mapExcept (f : α → Except PyErr β) : List α → Except PyErr (List β)
  | [] => Except.ok []
  | x :: xs =>
    match f x with
    | Except.error e => Except.error e
    | Except.ok y =>
      match mapExcept f xs with
      | Except.error e => Except.error e
      | Except.ok ys => Except.ok (y :: ys)

/-- The weight of one ordered pair in a group of more than two child stations:
the matched minimum transfer time when the route suffixes differ and a rule
matched, else the baseline constant (transit.py lines 292-298). -/
def diffRouteWeight (mtt : Option ℚ) (base : ℚ) (x y : String) : Except PyErr ℚ :=
  match routeSuffixOpt x, routeSuffixOpt y with
  | some sx, some sy => Except.ok (if sx ≠ sy then mtt.getD base else base)
  | _, _ => Except.error (PyErr.indexError "list index out of range")

/-- The weight of one ordered pair for an inter-station transfer rule: the
rule's minimum transfer time when the route suffixes differ, else the baseline
constant (transit.py lines 351-356). -/
def interRouteWeight (m base : ℚ) (x y : String) : Except PyErr ℚ :=
  match routeSuffixOpt x, routeSuffixOpt y with
  | some sx, some sy => Except.ok (if sx ≠ sy then m else base)
  | _, _ => Except.error (PyErr.indexError "list index out of range")

/-- The `while not transfer_nodes.empty` loop of `_build_intratransfer_edges`.
`prev` is the local variable `parent_station`, unbound (`none`) before the
first group is processed; `es` the accumulated `transfer_edges`; `errs` the
accumulated `error_nodes`. A node with null `parent_station` is appended to
`errs` and then the stale `prev` is used in the drop: with `prev` unbound that
read raises NameError, and otherwise the drop removes nothing, so the loop
makes no progress and the fuel runs out. -/
def intraLoop (agency net_type : Option String) (transfer : List TransferRule) (base : ℚ) :
    Nat → List Node → Option String → List TEdge → List Node →
    Outcome (List TEdge × List Node)
  | _, [], _, es, errs => Outcome.ok (es, errs)
  | 0, _ :: _, _, _, _ => Outcome.diverge
  | fuel + 1, h :: rest, prev, es, errs =>
    match h.parent_station with
    | some p =>
      let cs := groupIds p (h :: rest)
      let dropped := (h :: rest).filter (fun n => decide (¬ n.parent_station = some p))
      if cs.length < 2 then
        intraLoop agency net_type transfer base fuel dropped (some p) es errs
      else if cs.length = 2 then
        match permutedEdges agency net_type (perm2 cs)
            ((perm2 cs).map (fun _ => (lookupMtt transfer p).getD base)) with
        | Except.error e => Outcome.exn e
        | Except.ok pe =>
          intraLoop agency net_type transfer base fuel dropped (some p) (es ++ pe) errs
      else
        match mapExcept (fun pr => diffRouteWeight (lookupMtt transfer p) base pr.1 pr.2)
            (perm2 cs) with
        | Except.error e => Outcome.exn e
        | Except.ok wts =>
          match permutedEdges agency net_type (perm2 cs) wts with
          | Except.error e => Outcome.exn e
          | Except.ok pe =>
            intraLoop agency net_type transfer base fuel dropped (some p) (es ++ pe) errs
    | none =>
      match prev with
      | none => Outcome.exn (PyErr.nameError "parent_station")
      | some q =>
        intraLoop agency net_type transfer base fuel
          ((h :: rest).filter (fun n => decide (¬ n.parent_station = some q))) prev es
          (errs ++ [h])

/-- `_build_intratransfer_edges(self, transfer, base_transfer_time)`: runs the
loop on the node table with fuel beyond any terminating run, returning the
built `transfer_edges` together with the collected `error_nodes`. -/
def buildIntratransferEdges (agency net_type : Option String) (transfer : List TransferRule)
    (base : ℚ) (nodes : List Node) : Outcome (List TEdge × List Node) :=
  intraLoop agency net_type transfer base (nodes.length + 1) nodes none [] []

/-- The `for i in range(len(interchange))` loop of `_build_intertransfer_edges`:
one inter-station rule at a time, permuting the combined child-station set. -/
def interLoop (agency net_type : Option String) (nodes : List Node) (base : ℚ) :
    List TransferRule → Except PyErr (List TEdge)
  | [] => Except.ok []
  | r :: rest =>
    let cs := childrenOf nodes r
    match mapExcept (fun pr => interRouteWeight r.min_transfer_time base pr.1 pr.2)
        (perm2 cs) with
    | Except.error e => Except.error e
    | Except.ok wts =>
      match permutedEdges agency net_type (perm2 cs) wts with
      | Except.error e => Except.error e
      | Except.ok pe =>
        match interLoop agency net_type nodes base rest with
        | Except.error e => Except.error e
        | Except.ok more => Except.ok (pe ++ more)

/-- `_build_intertransfer_edges(self, transfer, base_transfer_time)`: restrict
to the rules connecting two different stops, then run the loop. -/
def buildIntertransferEdges (agency net_type : Option String) (nodes : List Node)
    (transfer : List TransferRule) (base : ℚ) : Except PyErr (List TEdge) :=
  interLoop agency net_type nodes base
    (transfer.filter (fun r => decide (¬ r.from_stop_id = r.to_stop_id)))

/-- `pandas.Series.mean()`: the arithmetic mean, or NaN (here `none`) for an
empty series. -/
def pdMean (l : List ℚ) : Option ℚ :=
  if l.isEmpty then none else some (l.sum / l.length)

/-- `_expected_wait_times(self, transfer_edges)`: for each transfer edge, half
the mean weight of the scheduled edges into the same destination node. An
undefined mean propagates as NaN (`none`); no exception is raised and the
remaining entries are still computed. -/
def expectedWaitTimes (edges : List SEdge) (transfer_edges : List TEdge) : List (Option ℚ) :=
  transfer_edges.map (fun te =>
    (pdMean ((edges.filter (fun e => decide (e.node_id_to = te.node_id_to))).map
      SEdge.weight)).map (fun m => m / 2))

/-- The instance attributes of a `GtfsGraph` that the transfer-edge path
reads. `none` stands for an attribute no method ever assigned: reading it
raises `AttributeError`. -/
structure GtfsState where
  agency : Option String
  net_type : Option String
  feed_path : Option String
  edges : List SEdge
  nodes : List Node
deriving DecidableEq, Repr

/-- `GtfsGraph.__init__`: the feed's edge and node tables are stored, but the
assignment of `self.agency` is commented out, and `self.net_type` and
`self.feed_path` are assigned nowhere (the latter is only a local variable of
`__init__`). -/
def initGtfsGraph (edges : List SEdge) (nodes : List Node) : GtfsState :=
  { agency := none, net_type := none, feed_path := none, edges := edges, nodes := nodes }

/-- `build_transfer_edges(self)`, given the parsed rows of transfers.txt. The
method first reads `self.feed_path` (never assigned); if that were present it
would convert the rule times to minutes, build intra- and inter-station
transfer edges, and then evaluate
`self._expected_wait_times(self, self.transfer_edges)` — a call with an extra
positional argument, which raises TypeError before any wait time is added. -/
def buildTransferEdges (st : GtfsState) (transfersFile : List TransferRule) :
    Outcome (List TEdge) :=
  match st.feed_path with
  | none => Outcome.exn (PyErr.attributeError "feed_path")
  | some _ =>
    let transfer := transfersFile.map (fun r =>
      { r with min_transfer_time := r.min_transfer_time / 60 })
    let base : ℚ := 2
    match buildIntratransferEdges st.agency st.net_type transfer base st.nodes with
    | Outcome.exn e => Outcome.exn e
    | Outcome.diverge => Outcome.diverge
    | Outcome.ok _ =>
      match buildIntertransferEdges st.agency st.net_type st.nodes transfer base with
      | Except.error e => Outcome.exn e
      | Except.ok _ =>
        Outcome.exn (PyErr.typeError
          "_expected_wait_times takes 2 positional arguments but 3 were given")

/-- One row of the edge table as the canonicalizer rewrites it: the endpoint
identifiers plus the columns the rewrite reads. -/
structure REdge where
  node_id_from : String
  node_id_to : String
  unique_agency_id : String
  unique_route_id : String
  weight : ℚ
deriving DecidableEq, Repr

/-- The first column assignment of `_rename_edges`: replace the agency token
inside `node_id_from` by the route token (Python `str.replace`, every
occurrence). -/
def renameEdgeFrom (e : REdge) : REdge :=
  { e with node_id_from := pyReplace e.node_id_from e.unique_agency_id e.unique_route_id }

/-- The second column assignment of `_rename_edges`, for `node_id_to`. -/
def renameEdgeTo (e : REdge) : REdge :=
  { e with node_id_to := pyReplace e.node_id_to e.unique_agency_id e.unique_route_id }

/-- A store of edge-table objects: `new_edges = self.edges` aliases an object,
so mutation must be visible through every reference. A reference is an index
into the store. -/
def heapGet (h : List (List REdge)) (r : Nat) : List REdge :=
  (h.get? r).getD []

/-- Writing an edge-table object in place. -/
def heapSet (h : List (List REdge)) (r : Nat) (v : List REdge) : List (List REdge) :=
  h.set r v

/-- `_rename_edges(self)`: `new_edges = self.edges` binds the same object, and
the two column assignments mutate that object in the store. -/
def renameEdgesHeap (h : List (List REdge)) (r : Nat) : List (List REdge) :=
  let h1 := heapSet h r ((heapGet h r).map renameEdgeFrom)
  heapSet h1 r ((heapGet h1 r).map renameEdgeTo)

/-- `str_split = name.split("_", 2); str_idx = str_split[0] + "_" + str_split[-1]`:
the key used to look a rewritten identifier up in the original node index. -/
def strIdxOf (s : String) : String :=
  (pySplit2 s).headD "" ++ "_" ++ ((pySplit2 s).getLast?).getD ""

/-- `new_node_id = list(set(from)) + list(set(to) - set(from))`: the distinct
endpoint identifiers of the rewritten edges, sources first. -/
def newNodeIds (edges : List REdge) : List String :=
  (edges.map REdge.node_id_from).dedup ++
    ((edges.map REdge.node_id_to).dedup.filter
      (fun x => decide (¬ x ∈ edges.map REdge.node_id_from)))

/-- The `for i in range(len(new_nodes))` loop of `_rename_nodes`:
`old_node_id.get_loc(str_idx)` raises KeyError on the first identifier whose
key is missing from the original index; otherwise the new node keeps the old
row's columns under the new identifier. -/
def renameLoop (oldNodes : List Node) : List String → Except PyErr (List Node)
  | [] => Except.ok []
  | id :: rest =>
    match oldNodes.find? (fun n => decide (n.node_id = strIdxOf id)) with
    | none => Except.error (PyErr.keyError (strIdxOf id))
    | some n =>
      match renameLoop oldNodes rest with
      | Except.error e => Except.error e
      | Except.ok ns => Except.ok ({ n with node_id := id } :: ns)

/-- `_rename_nodes(self)`: build the new node table from the rewritten edge
endpoints, recovering each row from the original table. -/
def renameNodes (oldNodes : List Node) (edges : List REdge) : Except PyErr (List Node) :=
  renameLoop oldNodes (newNodeIds edges)

/-- A `GtfsGraph` as `restructure_graph` sees it: `self.edges` is a reference
into the store of edge-table objects, `self.nodes` the node table value
(rebound, not mutated, by `_rename_nodes`). -/
structure GraphObj where
  edgesRef : Nat
  nodes : List Node
deriving DecidableEq, Repr

/-- `restructure_graph(self)`: `_rename_edges` first (mutating the edge object
in place), then `_rename_nodes` from the rewritten edges. -/
def restructureGraph (h : List (List REdge)) (g : GraphObj) :
    Except PyErr (List (List REdge) × GraphObj) :=
  let h1 := renameEdgesHeap h g.edgesRef
  match renameNodes g.nodes (heapGet h1 g.edgesRef) with
  | Except.error e => Except.error e
  | Except.ok newNodes => Except.ok (h1, { edgesRef := g.edgesRef, nodes := newNodes })

/-- The hardcoded South Ferry remapping, `replace("140", "142")` on a stop
identifier cell. -/
def rep140 (s : String) : String :=
  if s = "140" then "142" else s

/-- `_check_transfer(self, transfer)`. If every station referenced by an
inter-station rule appears among `parent_station` values, the hardcoded
legacy remapping may be applied and returned; the `if` without a matching
`return` otherwise falls off the end (Python returns `None`). If containment
fails, the rows referencing missing stations are dropped into a local that is
immediately discarded, and the original `transfer` table is returned. -/
def checkTransfer (nodes : List Node) (transfer : List TransferRule) :
    Except PyErr (Option (List TransferRule)) :=
  let interchange := transfer.filter (fun r => decide (¬ r.from_stop_id = r.to_stop_id))
  let station_complex := interchange.map TransferRule.from_stop_id ++
    interchange.map TransferRule.to_stop_id
  if station_complex.all (fun s => nodes.any (fun n => decide (n.parent_station = some s))) then
    match nodes.head? with
    | none => Except.error (PyErr.indexError "single positional indexer is out-of-bounds")
    | some n0 =>
      if n0.unique_agency_id = "mta_new_york_city_transit" ∧
          (transfer.filter (fun r => decide (r.from_stop_id = "142"))).isEmpty then
        Except.ok (some (transfer.map (fun r =>
          { r with from_stop_id := rep140 r.from_stop_id, to_stop_id := rep140 r.to_stop_id })))
      else Except.ok none
  else Except.ok (some transfer)

/-- The grouping key of `averaged_edges`: every column except the weight. -/
structure EKey where
  node_id_from : String
  node_id_to : String
  unique_agency_id : String
  route_type : String
  net_type : String
deriving DecidableEq, Repr

/-- One output row of `averaged_edges`: the key columns, the group size
(`total_trips`, the weight count) and the mean weight. -/
structure ARow where
  key : EKey
  total_trips : Nat
  weight : ℚ
deriving DecidableEq, Repr

/-- The grouping key of one edge row. -/
def ekey (e : TEdge) : EKey :=
  { node_id_from := e.node_id_from, node_id_to := e.node_id_to,
    unique_agency_id := e.unique_agency_id, route_type := e.route_type,
    net_type := e.net_type }

/-- `averaged_edges(self)`: group by the key columns and aggregate each group
to its weight count and mean weight. -/
def averagedEdges (edges : List TEdge) : List ARow :=
  ((edges.map ekey).dedup).map (fun k =>
    let ws := (edges.filter (fun e => decide (ekey e = k))).map TEdge.weight
    { key := k, total_trips := ws.length, weight := ws.sum / ws.length })

/-- The `transfer_edges` of a completed intra-station build. -/
def emittedOf : Outcome (List TEdge × List Node) → List TEdge
  | Outcome.ok pr => pr.1
  | _ => []

/-- The `error_nodes` of a completed intra-station build. -/
def errorNodesOf : Outcome (List TEdge × List Node) → List Node
  | Outcome.ok pr => pr.2
  | _ => []

/-- Whether an intra-station build returned normally. -/
def isOkIntra : Outcome (List TEdge × List Node) → Bool
  | Outcome.ok _ => true
  | _ => false

/-- Whether an inter-station build returned normally. -/
def isOkInter : Except PyErr (List TEdge) → Bool
  | Except.ok _ => true
  | _ => false

/-- The `transfer_edges` of a completed inter-station build. -/
def interEdgesOf : Except PyErr (List TEdge) → List TEdge
  | Except.ok es => es
  | _ => []

/-- Whether `build_transfer_edges` returned normally. -/
def isOkBuild : Outcome (List TEdge) → Bool
  | Outcome.ok _ => true
  | _ => false

/-- A two-node station group with well-formed identifiers. -/
def exStNodes : List Node :=
  [⟨"s1_A", some "ST", "ag"⟩, ⟨"s2_B", some "ST", "ag"⟩]

/-- A three-node station group: two nodes of route `r1`, one of route `r2`. -/
def exTriNodes : List Node :=
  [⟨"s1_r1_a", some "P6", "ag"⟩, ⟨"s2_r1_a", some "P6", "ag"⟩, ⟨"s3_r2_b", some "P6", "ag"⟩]

/-- A transfer rule matching the station of `exTriNodes`. -/
def exTriRules : List TransferRule :=
  [⟨"P6", "P6", 5⟩]

/-- A node table with one processable group followed by a node whose
`parent_station` is null. -/
def exNullNodes : List Node :=
  [⟨"a_R", some "PP", "ag"⟩, ⟨"z_Q", none, "ag"⟩]

/-- One scheduled edge into node `y`. -/
def exSched : List SEdge :=
  [⟨"u", "y", 5⟩]

/-- Two transfer edges: one into `x` (no scheduled in-edges), one into `y`. -/
def exTrans : List TEdge :=
  [⟨"q", "x", 2, "ag", "transfer", "nt"⟩, ⟨"q", "y", 2, "ag", "transfer", "nt"⟩]

/-- An original node table holding only the key `a_s`. -/
def exOldNodes : List Node :=
  [⟨"a_s", some "P", "ag"⟩]

/-- A rewritten edge whose `node_id_to` endpoint (`b_r_t`, key `b_t`) matches
no original node. -/
def exBadEdges : List REdge :=
  [⟨"a_r_s", "b_r_t", "zz", "zz", 1⟩]

/-- A store with one edge-table object. -/
def exHeap : List (List REdge) :=
  [[⟨"sta_ag1_stop", "sta_ag1_stop2", "ag1", "r9", 4⟩]]

/-- A graph whose edge table is the object `0` of `exHeap`. -/
def exGraph : GraphObj :=
  ⟨0, [⟨"sta_stop", some "P", "ag1"⟩, ⟨"sta_stop2", some "P", "ag1"⟩]⟩

/-- An already-aggregated edge table: two rows with distinct keys. -/
def exAggEdges : List TEdge :=
  [⟨"a", "b", 3, "ag", "transit", "nt"⟩, ⟨"b", "a", 7, "ag", "transit", "nt"⟩]

theorem perm2Go_length (l : List α) : ∀ pre : List α,
    (perm2Go pre l).length = l.length * (pre.length + l.length - 1) := by
  induction l with
  | nil => intro pre; simp [perm2Go]
  | cons a post ih =>
      intro pre
      have h := ih (pre ++ [a])
      have e1 : (pre ++ [a]).length = pre.length + 1 := by simp
      rw [e1] at h
      show ((pre ++ post).map (fun b => (a, b)) ++ perm2Go (pre ++ [a]) post).length
          = (a :: post).length * (pre.length + (a :: post).length - 1)
      rw [List.length_append, List.length_map, List.length_append, h, List.length_cons]
      have e2 : pre.length + (post.length + 1) - 1 = pre.length + post.length := by omega
      have e3 : pre.length + 1 + post.length - 1 = pre.length + post.length := by omega
      rw [e2, e3]
      ring

theorem perm2_length (l : List α) : (perm2 l).length = l.length * (l.length - 1) := by
  simpa using perm2Go_length l []

theorem perm2Go_mem_sound {x y : α} (l : List α) : ∀ pre : List α,
    (x, y) ∈ perm2Go pre l → x ∈ l ∧ y ∈ pre ++ l := by
  induction l with
  | nil => intro pre h; simp [perm2Go] at h
  | cons a post ih =>
      intro pre h
      rcases List.mem_append.mp h with h' | h'
      · obtain ⟨b, hb, hab⟩ := List.mem_map.mp h'
        cases hab
        constructor
        · exact List.mem_cons_self _ _
        · rcases List.mem_append.mp hb with hmem | hmem
          · exact List.mem_append_left _ hmem
          · exact List.mem_append_right _ (List.mem_cons_of_mem _ hmem)
      · obtain ⟨hx, hy⟩ := ih (pre ++ [a]) h'
        refine ⟨List.mem_cons_of_mem a hx, ?_⟩
        have e : (pre ++ [a]) ++ post = pre ++ a :: post := by simp
        rw [e] at hy
        exact hy

theorem perm2Go_mem_complete {x y : α} (l : List α) : ∀ pre : List α,
    (pre ++ l).Nodup → x ∈ l → y ∈ pre ++ l → x ≠ y → (x, y) ∈ perm2Go pre l := by
  induction l with
  | nil => intro pre _ hx; simp at hx
  | cons a post ih =>
      intro pre hnd hx hy hxy
      rcases List.mem_cons.mp hx with rfl | hx
      · apply List.mem_append_left
        apply List.mem_map.mpr
        refine ⟨y, ?_, rfl⟩
        rcases List.mem_append.mp hy with h | h
        · exact List.mem_append_left _ h
        · rcases List.mem_cons.mp h with rfl | h
          · exact absurd rfl hxy
          · exact List.mem_append_right _ h
      · apply List.mem_append_right
        have e : pre ++ a :: post = (pre ++ [a]) ++ post := by simp
        refine ih (pre ++ [a]) ?_ hx ?_ hxy
        · rw [← e]; exact hnd
        · rw [← e]; exact hy

theorem perm2Go_mem_ne {x y : α} (l : List α) : ∀ pre : List α,
    (pre ++ l).Nodup → (x, y) ∈ perm2Go pre l → x ≠ y := by
  induction l with
  | nil => intro pre _ h; simp [perm2Go] at h
  | cons a post ih =>
      intro pre hnd h
      have e : pre ++ a :: post = (pre ++ [a]) ++ post := by simp
      rcases List.mem_append.mp h with h' | h'
      · obtain ⟨b, hb, hab⟩ := List.mem_map.mp h'
        cases hab
        intro hcontra
        subst hcontra
        rcases List.mem_append.mp hb with hmem | hmem
        · exact (List.nodup_append.mp hnd).2.2 hmem (List.mem_cons_self x post)
        · exact (List.nodup_cons.mp (List.nodup_append.mp hnd).2.1).1 hmem
      · exact ih (pre ++ [a]) (e ▸ hnd) h'

theorem perm2_mem_sound {x y : α} (l : List α) (h : (x, y) ∈ perm2 l) :
    x ∈ l ∧ y ∈ l := by
  have := perm2Go_mem_sound l [] h
  simpa using this

theorem perm2_mem_complete {x y : α} (l : List α) (hnd : l.Nodup)
    (hx : x ∈ l) (hy : y ∈ l) (hxy : x ≠ y) : (x, y) ∈ perm2 l := by
  exact perm2Go_mem_complete l [] (by simpa using hnd) hx (by simpa using hy) hxy

theorem perm2_mem_ne {x y : α} (l : List α) (hnd : l.Nodup)
    (h : (x, y) ∈ perm2 l) : x ≠ y := by
  exact perm2Go_mem_ne l [] (by simpa using hnd) h

theorem perm2_swap {x y : α} (l : List α) (hnd : l.Nodup)
    (h : (x, y) ∈ perm2 l) : (y, x) ∈ perm2 l := by
  obtain ⟨hx, hy⟩ := perm2_mem_sound l h
  exact perm2_mem_complete l hnd hy hx (Ne.symm (perm2_mem_ne l hnd h))

theorem zip_self_map {β : Type} (w : α → β) (g : α × β → γ) (l : List α) :
    ((l.zip (l.map w)).map g) = l.map (fun x => g (x, w x)) := by
  induction l with
  | nil => rfl
  | cons a rest ih => simp [List.zip_cons_cons, ih]

theorem mapExcept_ok (f : α → Except PyErr β) (g : α → β) (l : List α)
    (h : ∀ x ∈ l, f x = Except.ok (g x)) :
    mapExcept f l = Except.ok (l.map g) := by
  induction l with
  | nil => rfl
  | cons a rest ih =>
      have ha := h a (List.mem_cons_self a rest)
      have hr := ih (fun x hx => h x (List.mem_cons_of_mem a hx))
      simp [mapExcept, ha, hr]

theorem permutedEdges_ok (ag nt : String) (w : String × String → ℚ)
    (permute : List (String × String)) (hne : permute ≠ []) :
    permutedEdges (some ag) (some nt) permute (permute.map w) =
      Except.ok (chunkEdges ag nt w permute) := by
  have hempty : permute.isEmpty = false := by
    cases permute with
    | nil => exact absurd rfl hne
    | cons a l => rfl
  simp only [permutedEdges, hempty, Bool.false_eq_true, if_false, chunkEdges]
  rw [zip_self_map]

theorem groupIds_mem {p : String} {work : List Node} {x : String} :
    x ∈ groupIds p work ↔ ∃ n ∈ work, n.parent_station = some p ∧ n.node_id = x := by
  simp only [groupIds, List.mem_map, List.mem_filter, decide_eq_true_eq]
  constructor
  · rintro ⟨n, ⟨hn, hp⟩, hid⟩
    exact ⟨n, hn, hp, hid⟩
  · rintro ⟨n, hn, hp, hid⟩
    exact ⟨n, ⟨hn, hp⟩, hid⟩

theorem groupIds_sub {p : String} {work : List Node} :
    ∀ x ∈ groupIds p work, x ∈ work.map Node.node_id := by
  intro x hx
  obtain ⟨n, hn, _, hid⟩ := groupIds_mem.mp hx
  exact List.mem_map.mpr ⟨n, hn, hid⟩

theorem groupIds_nodup {p : String} {work : List Node}
    (h : (work.map Node.node_id).Nodup) : (groupIds p work).Nodup := by
  have hsub : (work.filter (fun n => decide (n.parent_station = some p))).Sublist work :=
    List.filter_sublist work
  exact (hsub.map Node.node_id).nodup h

theorem nodeId_inj {work : List Node} (h : (work.map Node.node_id).Nodup)
    {n1 n2 : Node} (h1 : n1 ∈ work) (h2 : n2 ∈ work)
    (heq : n1.node_id = n2.node_id) : n1 = n2 := by
  exact List.inj_on_of_nodup_map h h1 h2 heq

theorem groupIds_disjoint {p q : String} {work : List Node}
    (h : (work.map Node.node_id).Nodup) {x : String}
    (hp : x ∈ groupIds p work) (hq : x ∈ groupIds q work) : p = q := by
  obtain ⟨n1, hn1, hp1, hid1⟩ := groupIds_mem.mp hp
  obtain ⟨n2, hn2, hp2, hid2⟩ := groupIds_mem.mp hq
  have : n1 = n2 := nodeId_inj h hn1 hn2 (hid1.trans hid2.symm)
  subst this
  rw [hp1] at hp2
  exact Option.some.injEq .. ▸ hp2

theorem groupIds_drop_other {p q : String} (hpq : p ≠ q) (work : List Node) :
    groupIds p (work.filter (fun n => decide (¬ n.parent_station = some q))) =
      groupIds p work := by
  unfold groupIds
  rw [List.filter_filter]
  congr 1
  apply List.filter_congr
  intro n _
  cases hps : n.parent_station with
  | none => simp
  | some r =>
      by_cases hr : r = p
      · subst hr
        simp [hpq]
      · simp [hr]

theorem groupIds_drop_self {p : String} (work : List Node) :
    groupIds p (work.filter (fun n => decide (¬ n.parent_station = some p))) = [] := by
  unfold groupIds
  rw [List.filter_filter]
  have h : work.filter (fun n =>
      decide (n.parent_station = some p) && decide (¬ n.parent_station = some p)) = [] := by
    rw [List.filter_eq_nil_iff]
    intro n _
    by_cases hn : n.parent_station = some p <;> simp [hn]
  rw [h]
  rfl

theorem chunk_from_mem {ag nt : String} {w : String × String → ℚ} {cs : List String}
    {e : TEdge} (he : e ∈ chunkEdges ag nt w (perm2 cs)) :
    e.node_id_from ∈ cs ∧ e.node_id_to ∈ cs := by
  obtain ⟨⟨x, y⟩, hpr, rfl⟩ := List.mem_map.mp he
  exact perm2_mem_sound cs hpr

theorem chunk_length {ag nt : String} {w : String × String → ℚ} {cs : List String} :
    (chunkEdges ag nt w (perm2 cs)).length = cs.length * (cs.length - 1) := by
  simp [chunkEdges, perm2_length]

theorem chunk_swap {ag nt : String} {w : String × String → ℚ} {cs : List String}
    (hnd : cs.Nodup) {e : TEdge} (he : e ∈ chunkEdges ag nt w (perm2 cs)) :
    ∃ e2 ∈ chunkEdges ag nt w (perm2 cs),
      e2.node_id_from = e.node_id_to ∧ e2.node_id_to = e.node_id_from := by
  obtain ⟨⟨x, y⟩, hpr, rfl⟩ := List.mem_map.mp he
  exact ⟨_, List.mem_map.mpr ⟨(y, x), perm2_swap cs hnd hpr, rfl⟩, rfl, rfl⟩

theorem diffRouteWeight_ok (mtt : Option ℚ) (base : ℚ) {x y : String}
    (hx : routeSuffixOpt x ≠ none) (hy : routeSuffixOpt y ≠ none) :
    diffRouteWeight mtt base x y =
      Except.ok (if routeSuffixD x ≠ routeSuffixD y then mtt.getD base else base) := by
  obtain ⟨sx, hsx⟩ := Option.ne_none_iff_exists'.mp hx
  obtain ⟨sy, hsy⟩ := Option.ne_none_iff_exists'.mp hy
  unfold diffRouteWeight routeSuffixD
  rw [hsx, hsy]
  rfl

theorem interRouteWeight_ok (m base : ℚ) {x y : String}
    (hx : routeSuffixOpt x ≠ none) (hy : routeSuffixOpt y ≠ none) :
    interRouteWeight m base x y =
      Except.ok (if routeSuffixD x ≠ routeSuffixD y then m else base) := by
  obtain ⟨sx, hsx⟩ := Option.ne_none_iff_exists'.mp hx
  obtain ⟨sy, hsy⟩ := Option.ne_none_iff_exists'.mp hy
  unfold interRouteWeight routeSuffixD
  rw [hsx, hsy]
  rfl

theorem perm2_ne_nil {l : List α} (h : 2 ≤ l.length) : perm2 l ≠ [] := by
  intro hn
  have h2 : l.length * (l.length - 1) = 0 := by rw [← perm2_length, hn]; rfl
  rcases Nat.mul_eq_zero.mp h2 with h3 | h3 <;> omega

theorem small_mul {n : Nat} (h : n < 2) : n * (n - 1) = 0 := by
  interval_cases n <;> rfl

theorem ids_drop_not_in_group {p : String} {work : List Node}
    (hnd : (work.map Node.node_id).Nodup) {x : String}
    (hx : x ∈ (work.filter (fun n => decide (¬ n.parent_station = some p))).map Node.node_id) :
    x ∉ groupIds p work := by
  intro hg
  obtain ⟨n', hn', hid'⟩ := List.mem_map.mp hx
  obtain ⟨hn'w, hpred⟩ := List.mem_filter.mp hn'
  obtain ⟨n, hnw, hps, hid⟩ := groupIds_mem.mp hg
  have : n = n' := nodeId_inj hnd hnw hn'w (hid.trans hid'.symm)
  subst this
  rw [hps] at hpred
  simp at hpred

theorem filter_cons_self_drop {p : String} (nid uag : String) (rest : List Node) :
    ((⟨nid, some p, uag⟩ : Node) :: rest).filter
      (fun n => decide (¬ n.parent_station = some p)) =
      rest.filter (fun n => decide (¬ n.parent_station = some p)) := by
  simp [List.filter_cons]

theorem intraLoop_step_some (ag nt : Option String) (transfer : List TransferRule) (base : ℚ)
    (fuel : Nat) (nid : String) (p : String) (uag : String) (rest : List Node)
    (prev : Option String) (es : List TEdge) (errs : List Node) :
    intraLoop ag nt transfer base (fuel + 1) (⟨nid, some p, uag⟩ :: rest) prev es errs =
      (if (groupIds p ((⟨nid, some p, uag⟩ : Node) :: rest)).length < 2 then
        intraLoop ag nt transfer base fuel
          (((⟨nid, some p, uag⟩ : Node) :: rest).filter
            (fun n => decide (¬ n.parent_station = some p))) (some p) es errs
      else if (groupIds p ((⟨nid, some p, uag⟩ : Node) :: rest)).length = 2 then
        match permutedEdges ag nt (perm2 (groupIds p ((⟨nid, some p, uag⟩ : Node) :: rest)))
            ((perm2 (groupIds p ((⟨nid, some p, uag⟩ : Node) :: rest))).map
              (fun _ => (lookupMtt transfer p).getD base)) with
        | Except.error e => Outcome.exn e
        | Except.ok pe =>
          intraLoop ag nt transfer base fuel
            (((⟨nid, some p, uag⟩ : Node) :: rest).filter
              (fun n => decide (¬ n.parent_station = some p))) (some p) (es ++ pe) errs
      else
        match mapExcept (fun pr => diffRouteWeight (lookupMtt transfer p) base pr.1 pr.2)
            (perm2 (groupIds p ((⟨nid, some p, uag⟩ : Node) :: rest))) with
        | Except.error e => Outcome.exn e
        | Except.ok wts =>
          match permutedEdges ag nt
              (perm2 (groupIds p ((⟨nid, some p, uag⟩ : Node) :: rest))) wts with
          | Except.error e => Outcome.exn e
          | Except.ok pe =>
            intraLoop ag nt transfer base fuel
              (((⟨nid, some p, uag⟩ : Node) :: rest).filter
                (fun n => decide (¬ n.parent_station = some p))) (some p) (es ++ pe) errs) :=
  rfl

theorem intraLoop_step_none_unbound (ag nt : Option String) (transfer : List TransferRule)
    (base : ℚ) (fuel : Nat) (nid uag : String) (rest : List Node) (es : List TEdge)
    (errs : List Node) :
    intraLoop ag nt transfer base (fuel + 1) (⟨nid, none, uag⟩ :: rest) none es errs =
      Outcome.exn (PyErr.nameError "parent_station") :=
  rfl

theorem intraLoop_step_none_stale (ag nt : Option String) (transfer : List TransferRule)
    (base : ℚ) (fuel : Nat) (nid uag : String) (rest : List Node) (q : String)
    (es : List TEdge) (errs : List Node) :
    intraLoop ag nt transfer base (fuel + 1) (⟨nid, none, uag⟩ :: rest) (some q) es errs =
      intraLoop ag nt transfer base fuel
        (((⟨nid, none, uag⟩ : Node) :: rest).filter
          (fun n => decide (¬ n.parent_station = some q))) (some q) es
        (errs ++ [⟨nid, none, uag⟩]) :=
  rfl

theorem intraLoop_spec (ag nt : String) (transfer : List TransferRule) (base : ℚ)
    (fuel : Nat) :
    ∀ (work : List Node) (prev : Option String) (es : List TEdge) (errs : List Node),
    work.length ≤ fuel →
    (∀ n ∈ work, n.parent_station ≠ none) →
    (∀ n ∈ work, routeSuffixOpt n.node_id ≠ none) →
    (work.map Node.node_id).Nodup →
    ∃ es2 : List TEdge,
      intraLoop (some ag) (some nt) transfer base fuel work prev es errs =
        Outcome.ok (es ++ es2, errs) ∧
      (∀ e ∈ es2, e.node_id_from ∈ work.map Node.node_id) ∧
      (∀ p : String, (es2.filter (fun e => decide (e.node_id_from ∈ groupIds p work))).length
          = (groupIds p work).length * ((groupIds p work).length - 1)) ∧
      (∀ e ∈ es2, ∃ e2 ∈ es2, e2.node_id_from = e.node_id_to ∧ e2.node_id_to = e.node_id_from) ∧
      (∀ p : String, ∀ e ∈ es2, e.node_id_from ∈ groupIds p work →
          e.node_id_to ∈ groupIds p work ∧
          (2 < (groupIds p work).length →
            e.weight = if routeSuffixD e.node_id_from ≠ routeSuffixD e.node_id_to
              then (lookupMtt transfer p).getD base else base)) := by
  induction fuel with
  | zero =>
      intro work prev es errs hlen _ _ _
      have hw : work = [] := List.length_eq_zero.mp (Nat.le_zero.mp hlen)
      subst hw
      refine ⟨[], by simp [intraLoop], by simp, ?_, by simp, ?_⟩
      · intro p; simp [groupIds]
      · intro p e he; simp at he
  | succ f ih =>
      intro work prev es errs hlen hnn hsfx hnd
      cases work with
      | nil =>
          refine ⟨[], by simp [intraLoop], by simp, ?_, by simp, ?_⟩
          · intro p; simp [groupIds]
          · intro p e he; simp at he
      | cons h0 rest =>
          obtain ⟨nid, hps, uag⟩ := h0
          obtain ⟨p, rfl⟩ : ∃ p, hps = some p := by
            cases hps with
            | none =>
                exact absurd rfl (hnn ⟨nid, none, uag⟩ (List.mem_cons_self _ _))
            | some p => exact ⟨p, rfl⟩
          rw [intraLoop_step_some]
          set w0 : List Node := (⟨nid, some p, uag⟩ : Node) :: rest with hw0def
          set cs : List String := groupIds p w0 with hcsdef
          set wd : List Node := w0.filter (fun n => decide (¬ n.parent_station = some p))
            with hwddef
          -- facts about the dropped working set
          have hsubwd : ∀ n ∈ wd, n ∈ w0 := fun n hn => (List.mem_filter.mp hn).1
          have hlenwd : wd.length ≤ f := by
            have h1 : wd = rest.filter (fun n => decide (¬ n.parent_station = some p)) := by
              rw [hwddef, hw0def, filter_cons_self_drop]
            have h2 := List.length_filter_le
              (fun n => decide (¬ n.parent_station = some p)) rest
            have h3 : w0.length ≤ f + 1 := hlen
            have h4 : w0.length = rest.length + 1 := by rw [hw0def]; rfl
            rw [h1]
            omega
          have hnnwd : ∀ n ∈ wd, n.parent_station ≠ none := fun n hn => hnn n (hsubwd n hn)
          have hsfxwd : ∀ n ∈ wd, routeSuffixOpt n.node_id ≠ none :=
            fun n hn => hsfx n (hsubwd n hn)
          have hndwd : (wd.map Node.node_id).Nodup := by
            rw [hwddef]
            exact ((List.filter_sublist w0).map Node.node_id).nodup hnd
          have hidsubwd : ∀ x ∈ wd.map Node.node_id, x ∈ w0.map Node.node_id := by
            intro x hx
            obtain ⟨n, hn, hidn⟩ := List.mem_map.mp hx
            exact List.mem_map.mpr ⟨n, hsubwd n hn, hidn⟩
          have hdiswd : ∀ x ∈ wd.map Node.node_id, x ∉ cs := by
            intro x hx
            rw [hcsdef]
            exact ids_drop_not_in_group hnd (hwddef ▸ hx)
          have hgroup_other : ∀ q : String, q ≠ p → groupIds q wd = groupIds q w0 := by
            intro q hq
            rw [hwddef]
            exact groupIds_drop_other hq w0
          have hcssub : ∀ x ∈ cs, x ∈ w0.map Node.node_id := by
            intro x hx
            exact groupIds_sub x (hcsdef ▸ hx)
          have hcsnodup : cs.Nodup := by
            rw [hcsdef]
            exact groupIds_nodup hnd
          have hsfxcs : ∀ x ∈ cs, routeSuffixOpt x ≠ none := by
            intro x hx
            obtain ⟨n, hn, hidn⟩ := List.mem_map.mp (hcssub x hx)
            rw [← hidn]
            exact hsfx n hn
          -- the chunk this iteration appends, and its properties
          obtain ⟨pe, hstep, hpemem, hpelen, hpesym, hpewt⟩ :
              ∃ pe : List TEdge,
                (if cs.length < 2 then
                  intraLoop (some ag) (some nt) transfer base f wd (some p) es errs
                else if cs.length = 2 then
                  match permutedEdges (some ag) (some nt) (perm2 cs)
                      ((perm2 cs).map (fun _ => (lookupMtt transfer p).getD base)) with
                  | Except.error e => Outcome.exn e
                  | Except.ok pe =>
                    intraLoop (some ag) (some nt) transfer base f wd (some p) (es ++ pe) errs
                else
                  match mapExcept
                      (fun pr => diffRouteWeight (lookupMtt transfer p) base pr.1 pr.2)
                      (perm2 cs) with
                  | Except.error e => Outcome.exn e
                  | Except.ok wts =>
                    match permutedEdges (some ag) (some nt) (perm2 cs) wts with
                    | Except.error e => Outcome.exn e
                    | Except.ok pe =>
                      intraLoop (some ag) (some nt) transfer base f wd (some p) (es ++ pe)
                        errs) =
                  intraLoop (some ag) (some nt) transfer base f wd (some p) (es ++ pe) errs ∧
                (∀ e ∈ pe, e.node_id_from ∈ cs ∧ e.node_id_to ∈ cs) ∧
                pe.length = cs.length * (cs.length - 1) ∧
                (∀ e ∈ pe, ∃ e2 ∈ pe,
                  e2.node_id_from = e.node_id_to ∧ e2.node_id_to = e.node_id_from) ∧
                (2 < cs.length → ∀ e ∈ pe,
                  e.weight = if routeSuffixD e.node_id_from ≠ routeSuffixD e.node_id_to
                    then (lookupMtt transfer p).getD base else base) := by
            by_cases hlt : cs.length < 2
            · refine ⟨[], ?_, by simp, (small_mul hlt).symm, by simp, by simp⟩
              rw [if_pos hlt, List.append_nil]
            · by_cases heq2 : cs.length = 2
              · have hpermok := permutedEdges_ok ag nt
                  (fun _ => (lookupMtt transfer p).getD base) (perm2 cs)
                  (perm2_ne_nil (by omega))
                refine ⟨chunkEdges ag nt (fun _ => (lookupMtt transfer p).getD base)
                  (perm2 cs), ?_, ?_, chunk_length, ?_, ?_⟩
                · rw [if_neg hlt, if_pos heq2]
                  rw [hpermok]
                · intro e he; exact chunk_from_mem he
                · intro e he; exact chunk_swap hcsnodup he
                · intro hcontra; omega
              · have hge3 : 2 < cs.length := by omega
                have hmapok : mapExcept
                    (fun pr => diffRouteWeight (lookupMtt transfer p) base pr.1 pr.2)
                    (perm2 cs) =
                    Except.ok ((perm2 cs).map (fun pr =>
                      if routeSuffixD pr.1 ≠ routeSuffixD pr.2
                      then (lookupMtt transfer p).getD base else base)) := by
                  apply mapExcept_ok
                  intro pr hpr
                  obtain ⟨x, y⟩ := pr
                  exact diffRouteWeight_ok _ _
                    (hsfxcs x (perm2_mem_sound cs hpr).1)
                    (hsfxcs y (perm2_mem_sound cs hpr).2)
                have hpermok := permutedEdges_ok ag nt
                  (fun pr => if routeSuffixD pr.1 ≠ routeSuffixD pr.2
                    then (lookupMtt transfer p).getD base else base) (perm2 cs)
                  (perm2_ne_nil (by omega))
                refine ⟨chunkEdges ag nt
                  (fun pr => if routeSuffixD pr.1 ≠ routeSuffixD pr.2
                    then (lookupMtt transfer p).getD base else base) (perm2 cs),
                  ?_, ?_, chunk_length, ?_, ?_⟩
                · rw [if_neg hlt, if_neg heq2, hmapok]
                  dsimp only
                  rw [hpermok]
                · intro e he; exact chunk_from_mem he
                · intro e he; exact chunk_swap hcsnodup he
                · intro _ e he
                  obtain ⟨⟨x, y⟩, hpr, rfl⟩ := List.mem_map.mp he
                  rfl
          -- apply the induction hypothesis to the dropped working set
          obtain ⟨es2', hrun', hends', hcnt', hsym', hwt'⟩ :=
            ih wd (some p) (es ++ pe) errs hlenwd hnnwd hsfxwd hndwd
          refine ⟨pe ++ es2', ?_, ?_, ?_, ?_, ?_⟩
          · rw [hstep, hrun', List.append_assoc]
          · intro e he
            rcases List.mem_append.mp he with he | he
            · exact hcssub _ ((hpemem e he).1)
            · exact hidsubwd _ (hends' e he)
          · intro q
            rw [List.filter_append, List.length_append]
            by_cases hq : q = p
            · subst hq
              have hfilpe : pe.filter
                  (fun e => decide (e.node_id_from ∈ groupIds q w0)) = pe := by
                apply List.filter_eq_self.mpr
                intro e he
                exact decide_eq_true (hcsdef ▸ (hpemem e he).1)
              have hfiles2 : es2'.filter
                  (fun e => decide (e.node_id_from ∈ groupIds q w0)) = [] := by
                apply List.filter_eq_nil_iff.mpr
                intro e he
                simp only [decide_eq_true_eq]
                intro hmem
                have hmem' : e.node_id_from ∈ cs := by rw [hcsdef]; exact hmem
                exact hdiswd _ (hends' e he) hmem'
              rw [hfilpe, hfiles2, ← hcsdef]
              simp [hpelen]
            · have hfilpe : pe.filter
                  (fun e => decide (e.node_id_from ∈ groupIds q w0)) = [] := by
                apply List.filter_eq_nil_iff.mpr
                intro e he
                simp only [decide_eq_true_eq]
                intro hmem
                have hin : e.node_id_from ∈ groupIds p w0 := by
                  rw [← hcsdef]; exact (hpemem e he).1
                exact hq (@groupIds_disjoint q p w0 hnd e.node_id_from hmem hin)
              have h5 := hcnt' q
              rw [hgroup_other q hq] at h5
              rw [hfilpe, h5]
              simp
          · intro e he
            rcases List.mem_append.mp he with he | he
            · obtain ⟨e2, he2, hswap⟩ := hpesym e he
              exact ⟨e2, List.mem_append_left _ he2, hswap⟩
            · obtain ⟨e2, he2, hswap⟩ := hsym' e he
              exact ⟨e2, List.mem_append_right _ he2, hswap⟩
          · intro q e he hqfrom
            rcases List.mem_append.mp he with he | he
            · have hin : e.node_id_from ∈ groupIds p w0 := by
                rw [← hcsdef]; exact (hpemem e he).1
              have hq : q = p := @groupIds_disjoint q p w0 hnd e.node_id_from hqfrom hin
              subst hq
              constructor
              · rw [← hcsdef]; exact (hpemem e he).2
              · intro hbig
                exact hpewt (by rw [hcsdef]; exact hbig) e he
            · have hnmem : e.node_id_from ∉ cs := hdiswd _ (hends' e he)
              by_cases hq : q = p
              · subst hq
                exact absurd (hcsdef ▸ hqfrom) hnmem
              · have h6 := hwt' q e he (by rw [hgroup_other q hq]; exact hqfrom)
                rw [hgroup_other q hq] at h6
                exact h6

/-- C1: for every node table (with unique, well-formed identifiers and no null
parent stations — and with the instance attributes `agency` and `net_type`
assigned, without which the builder raises instead, see the counterexample)
and every parent-station group, `_build_intratransfer_edges` completes and
emits exactly `n * (n - 1)` directed transfer edges for a group of size `n`
(hence zero edges for groups of size 0 or 1), and the emitted edge set is
symmetric in membership: every emitted `(a, b)` has a matching `(b, a)`. -/
theorem intra_builder_pair_counts (ag nt : String) (transfer : List TransferRule) (base : ℚ)
    (nodes : List Node)
    (hnd : (nodes.map Node.node_id).Nodup)
    (hnn : ∀ n ∈ nodes, n.parent_station ≠ none)
    (hsfx : ∀ n ∈ nodes, routeSuffixOpt n.node_id ≠ none) :
    isOkIntra (buildIntratransferEdges (some ag) (some nt) transfer base nodes) = true ∧
    errorNodesOf (buildIntratransferEdges (some ag) (some nt) transfer base nodes) = [] ∧
    (∀ p : String,
      ((emittedOf (buildIntratransferEdges (some ag) (some nt) transfer base nodes)).filter
        (fun e => decide (e.node_id_from ∈ groupIds p nodes))).length
        = (groupIds p nodes).length * ((groupIds p nodes).length - 1)) ∧
    (∀ e ∈ emittedOf (buildIntratransferEdges (some ag) (some nt) transfer base nodes),
      ∃ e2 ∈ emittedOf (buildIntratransferEdges (some ag) (some nt) transfer base nodes),
        e2.node_id_from = e.node_id_to ∧ e2.node_id_to = e.node_id_from) ∧
    (∀ p : String, (groupIds p nodes).length ≤ 1 →
      (emittedOf (buildIntratransferEdges (some ag) (some nt) transfer base nodes)).filter
        (fun e => decide (e.node_id_from ∈ groupIds p nodes)) = []) := by
  obtain ⟨es2, hrun, hends, hcnt, hsym, hwt⟩ :=
    intraLoop_spec ag nt transfer base (nodes.length + 1) nodes none [] []
      (Nat.le_succ _) hnn hsfx hnd
  have hbuild : buildIntratransferEdges (some ag) (some nt) transfer base nodes =
      Outcome.ok (es2, []) := by
    rw [buildIntratransferEdges, hrun]
    simp
  rw [hbuild]
  simp only [emittedOf, errorNodesOf, isOkIntra]
  refine ⟨trivial, trivial, ?_, ?_, ?_⟩
  · intro p
    exact hcnt p
  · intro e he
    exact hsym e he
  · intro p hsmall
    apply List.length_eq_zero.mp
    rw [hcnt p, small_mul (by omega)]

/-- C1 witness: the two-node group `ST` produces `2 * 1` edges, symmetric in
membership, when the attributes are assigned. -/
theorem intra_builder_pair_counts_witness :
    isOkIntra (buildIntratransferEdges (some "ag") (some "nt") [] 2 exStNodes) = true ∧
    errorNodesOf (buildIntratransferEdges (some "ag") (some "nt") [] 2 exStNodes) = [] ∧
    (∀ p : String,
      ((emittedOf (buildIntratransferEdges (some "ag") (some "nt") [] 2 exStNodes)).filter
        (fun e => decide (e.node_id_from ∈ groupIds p exStNodes))).length
        = (groupIds p exStNodes).length * ((groupIds p exStNodes).length - 1)) ∧
    (∀ e ∈ emittedOf (buildIntratransferEdges (some "ag") (some "nt") [] 2 exStNodes),
      ∃ e2 ∈ emittedOf (buildIntratransferEdges (some "ag") (some "nt") [] 2 exStNodes),
        e2.node_id_from = e.node_id_to ∧ e2.node_id_to = e.node_id_from) ∧
    (∀ p : String, (groupIds p exStNodes).length ≤ 1 →
      (emittedOf (buildIntratransferEdges (some "ag") (some "nt") [] 2 exStNodes)).filter
        (fun e => decide (e.node_id_from ∈ groupIds p exStNodes)) = []) :=
  intra_builder_pair_counts "ag" "nt" [] 2 exStNodes (by decide) (by decide) (by decide)

/-- C1 counterexample: on the instance as constructed by `__init__` (with
`self.agency` and `self.net_type` unassigned), the builder raises an
attribute-lookup error on this size-2 group instead of emitting its
`2 * 1 = 2` transfer edges. -/
theorem intra_builder_attr_counterexample :
    (groupIds "ST" exStNodes).length = 2 ∧
    buildIntratransferEdges none none [] 2 exStNodes =
      Outcome.exn (PyErr.attributeError "agency") :=
  ⟨by decide, by decide⟩

theorem childrenOf_sub {nodes : List Node} {r : TransferRule} :
    ∀ x ∈ childrenOf nodes r, x ∈ nodes.map Node.node_id := by
  intro x hx
  obtain ⟨n, hn, hid⟩ := List.mem_map.mp hx
  exact List.mem_map.mpr ⟨n, (List.mem_filter.mp hn).1, hid⟩

theorem childrenOf_nodup {nodes : List Node} {r : TransferRule}
    (h : (nodes.map Node.node_id).Nodup) : (childrenOf nodes r).Nodup :=
  ((List.filter_sublist nodes).map Node.node_id).nodup h

theorem interLoop_spec (ag nt : String) (nodes : List Node) (base : ℚ) :
    ∀ rules : List TransferRule,
    (∀ n ∈ nodes, routeSuffixOpt n.node_id ≠ none) →
    ((nodes.map Node.node_id).Nodup) →
    (∀ r ∈ rules, 2 ≤ (childrenOf nodes r).length) →
    ∃ es : List TEdge,
      interLoop (some ag) (some nt) nodes base rules = Except.ok es ∧
      (∀ e ∈ es, ∃ r ∈ rules, e.node_id_from ∈ childrenOf nodes r ∧
        e.node_id_to ∈ childrenOf nodes r ∧
        e.weight = if routeSuffixD e.node_id_from ≠ routeSuffixD e.node_id_to
          then r.min_transfer_time else base) ∧
      (∀ r ∈ rules, ∀ x ∈ childrenOf nodes r, ∀ y ∈ childrenOf nodes r, x ≠ y →
        ∃ e ∈ es, e.node_id_from = x ∧ e.node_id_to = y ∧
          e.weight = if routeSuffixD x ≠ routeSuffixD y
            then r.min_transfer_time else base) := by
  intro rules
  induction rules with
  | nil =>
      intro _ _ _
      exact ⟨[], rfl, by simp, by simp⟩
  | cons r rest ih =>
      intro hsfx hnd hch
      have hchr := hch r (List.mem_cons_self _ _)
      have hsfxch : ∀ x ∈ childrenOf nodes r, routeSuffixOpt x ≠ none := by
        intro x hx
        obtain ⟨n, hn, hid⟩ := List.mem_map.mp (childrenOf_sub x hx)
        rw [← hid]
        exact hsfx n hn
      have hndch : (childrenOf nodes r).Nodup := childrenOf_nodup hnd
      have hmapok : mapExcept
          (fun pr => interRouteWeight r.min_transfer_time base pr.1 pr.2)
          (perm2 (childrenOf nodes r)) =
          Except.ok ((perm2 (childrenOf nodes r)).map (fun pr =>
            if routeSuffixD pr.1 ≠ routeSuffixD pr.2
            then r.min_transfer_time else base)) := by
        apply mapExcept_ok
        intro pr hpr
        obtain ⟨x, y⟩ := pr
        exact interRouteWeight_ok _ _
          (hsfxch x (perm2_mem_sound _ hpr).1)
          (hsfxch y (perm2_mem_sound _ hpr).2)
      have hpermok := permutedEdges_ok ag nt
        (fun pr => if routeSuffixD pr.1 ≠ routeSuffixD pr.2
          then r.min_transfer_time else base) (perm2 (childrenOf nodes r))
        (perm2_ne_nil hchr)
      obtain ⟨es', hrun', hmem', hcov'⟩ :=
        ih hsfx hnd (fun r2 h2 => hch r2 (List.mem_cons_of_mem _ h2))
      refine ⟨chunkEdges ag nt
        (fun pr => if routeSuffixD pr.1 ≠ routeSuffixD pr.2
          then r.min_transfer_time else base) (perm2 (childrenOf nodes r)) ++ es',
        ?_, ?_, ?_⟩
      · show (match mapExcept
            (fun pr => interRouteWeight r.min_transfer_time base pr.1 pr.2)
            (perm2 (childrenOf nodes r)) with
          | Except.error e => Except.error e
          | Except.ok wts =>
            match permutedEdges (some ag) (some nt) (perm2 (childrenOf nodes r)) wts with
            | Except.error e => Except.error e
            | Except.ok pe =>
              match interLoop (some ag) (some nt) nodes base rest with
              | Except.error e => Except.error e
              | Except.ok more => Except.ok (pe ++ more)) = _
        rw [hmapok]
        dsimp only
        rw [hpermok]
        dsimp only
        rw [hrun']
      · intro e he
        rcases List.mem_append.mp he with he | he
        · obtain ⟨⟨x, y⟩, hpr, rfl⟩ := List.mem_map.mp he
          obtain ⟨hx, hy⟩ := perm2_mem_sound _ hpr
          exact ⟨r, List.mem_cons_self _ _, hx, hy, rfl⟩
        · obtain ⟨r2, hr2, hmm⟩ := hmem' e he
          exact ⟨r2, List.mem_cons_of_mem _ hr2, hmm⟩
      · intro r2 hr2 x hx y hy hxy
        rcases List.mem_cons.mp hr2 with rfl | hr2
        · refine ⟨_, List.mem_append_left _
            (List.mem_map.mpr ⟨(x, y), perm2_mem_complete _ hndch hx hy hxy, rfl⟩),
            rfl, rfl, rfl⟩
        · obtain ⟨e, he, hee⟩ := hcov' r2 hr2 x hx y hy hxy
          exact ⟨e, List.mem_append_right _ he, hee⟩

/-- C6 (amended): with the instance attributes assigned (without which the
builders raise, see the counterexample) and a well-formed node table: in an
intra-station group of size greater than 2 whose station matches a transfer
rule with minimum time `m`, every edge emitted for that group gets weight `m`
exactly when its two endpoints carry different route suffixes, and the
baseline constant when they carry the same suffix; and for every
inter-station rule, every ordered pair drawn from the combined child-station
set is emitted with the rule's minimum transfer time exactly when the route
suffixes differ, else the baseline constant. -/
theorem transfer_weight_rule (ag nt : String) (transfer : List TransferRule) (base : ℚ)
    (nodes : List Node) (p : String) (m : ℚ)
    (hnd : (nodes.map Node.node_id).Nodup)
    (hnn : ∀ n ∈ nodes, n.parent_station ≠ none)
    (hsfx : ∀ n ∈ nodes, routeSuffixOpt n.node_id ≠ none)
    (hmtt : lookupMtt transfer p = some m)
    (hbig : 2 < (groupIds p nodes).length)
    (hch : ∀ r ∈ transfer.filter (fun r2 => decide (¬ r2.from_stop_id = r2.to_stop_id)),
      2 ≤ (childrenOf nodes r).length) :
    (isOkIntra (buildIntratransferEdges (some ag) (some nt) transfer base nodes) = true ∧
      ∀ e ∈ emittedOf (buildIntratransferEdges (some ag) (some nt) transfer base nodes),
        e.node_id_from ∈ groupIds p nodes →
          e.node_id_to ∈ groupIds p nodes ∧
          e.weight = if routeSuffixD e.node_id_from ≠ routeSuffixD e.node_id_to
            then m else base) ∧
    (isOkInter (buildIntertransferEdges (some ag) (some nt) nodes transfer base) = true ∧
      (∀ e ∈ interEdgesOf (buildIntertransferEdges (some ag) (some nt) nodes transfer base),
        ∃ r ∈ transfer.filter (fun r2 => decide (¬ r2.from_stop_id = r2.to_stop_id)),
          e.node_id_from ∈ childrenOf nodes r ∧ e.node_id_to ∈ childrenOf nodes r ∧
          e.weight = if routeSuffixD e.node_id_from ≠ routeSuffixD e.node_id_to
            then r.min_transfer_time else base) ∧
      (∀ r ∈ transfer.filter (fun r2 => decide (¬ r2.from_stop_id = r2.to_stop_id)),
        ∀ x ∈ childrenOf nodes r, ∀ y ∈ childrenOf nodes r, x ≠ y →
          ∃ e ∈ interEdgesOf (buildIntertransferEdges (some ag) (some nt) nodes transfer base),
            e.node_id_from = x ∧ e.node_id_to = y ∧
            e.weight = if routeSuffixD x ≠ routeSuffixD y
              then r.min_transfer_time else base)) := by
  constructor
  · obtain ⟨es2, hrun, hends, hcnt, hsym, hwt⟩ :=
      intraLoop_spec ag nt transfer base (nodes.length + 1) nodes none [] []
        (Nat.le_succ _) hnn hsfx hnd
    have hbuild : buildIntratransferEdges (some ag) (some nt) transfer base nodes =
        Outcome.ok (es2, []) := by
      rw [buildIntratransferEdges, hrun]
      simp
    rw [hbuild]
    refine ⟨rfl, ?_⟩
    intro e he hfrom
    obtain ⟨hto, hwe⟩ := hwt p e he hfrom
    refine ⟨hto, ?_⟩
    rw [hwe hbig, hmtt]
    rfl
  · obtain ⟨es, hrun, hmem, hcov⟩ :=
      interLoop_spec ag nt nodes base
        (transfer.filter (fun r2 => decide (¬ r2.from_stop_id = r2.to_stop_id))) hsfx hnd hch
    have hbuild : buildIntertransferEdges (some ag) (some nt) nodes transfer base =
        Except.ok es := by
      rw [buildIntertransferEdges, hrun]
    rw [hbuild]
    exact ⟨rfl, hmem, hcov⟩

/-- C6 witness: the three-node group `P6` (routes `r1`, `r1`, `r2`) with a
matched rule of minimum time 5. -/
theorem transfer_weight_rule_witness :
    (isOkIntra (buildIntratransferEdges (some "ag") (some "nt") exTriRules 2 exTriNodes) = true ∧
      ∀ e ∈ emittedOf (buildIntratransferEdges (some "ag") (some "nt") exTriRules 2 exTriNodes),
        e.node_id_from ∈ groupIds "P6" exTriNodes →
          e.node_id_to ∈ groupIds "P6" exTriNodes ∧
          e.weight = if routeSuffixD e.node_id_from ≠ routeSuffixD e.node_id_to
            then 5 else 2) ∧
    (isOkInter (buildIntertransferEdges (some "ag") (some "nt") exTriNodes exTriRules 2) = true ∧
      (∀ e ∈ interEdgesOf (buildIntertransferEdges (some "ag") (some "nt") exTriNodes exTriRules 2),
        ∃ r ∈ exTriRules.filter (fun r2 => decide (¬ r2.from_stop_id = r2.to_stop_id)),
          e.node_id_from ∈ childrenOf exTriNodes r ∧ e.node_id_to ∈ childrenOf exTriNodes r ∧
          e.weight = if routeSuffixD e.node_id_from ≠ routeSuffixD e.node_id_to
            then r.min_transfer_time else 2) ∧
      (∀ r ∈ exTriRules.filter (fun r2 => decide (¬ r2.from_stop_id = r2.to_stop_id)),
        ∀ x ∈ childrenOf exTriNodes r, ∀ y ∈ childrenOf exTriNodes r, x ≠ y →
          ∃ e ∈ interEdgesOf (buildIntertransferEdges (some "ag") (some "nt") exTriNodes exTriRules 2),
            e.node_id_from = x ∧ e.node_id_to = y ∧
            e.weight = if routeSuffixD x ≠ routeSuffixD y
              then r.min_transfer_time else 2)) :=
  transfer_weight_rule "ag" "nt" exTriRules 2 exTriNodes "P6" 5 (by decide) (by decide)
    (by decide) (by decide) (by decide) (by decide)

/-- C6 counterexample: on the instance as `__init__` leaves it (attributes
unassigned), the size-3 group with a matched rule raises an attribute-lookup
error, so no pair receives any weight at all. -/
theorem transfer_weight_attr_counterexample :
    2 < (groupIds "P6" exTriNodes).length ∧
    lookupMtt exTriRules "P6" = some 5 ∧
    buildIntratransferEdges none none exTriRules 2 exTriNodes =
      Outcome.exn (PyErr.attributeError "agency") :=
  ⟨by decide, by decide, by decide⟩

theorem permutedEdges_none_agency (nt : Option String) {permute : List (String × String)}
    (h : permute ≠ []) (wts : List ℚ) :
    permutedEdges none nt permute wts = Except.error (PyErr.attributeError "agency") := by
  have hempty : permute.isEmpty = false := by
    cases permute with
    | nil => exact absurd rfl h
    | cons a l => rfl
  simp [permutedEdges, hempty]

theorem intraLoop_none_agency (nt : Option String) (transfer : List TransferRule) (base : ℚ)
    (fuel : Nat) :
    ∀ (work : List Node) (prev : Option String) (es : List TEdge) (errs : List Node)
      (p : String),
    work.length ≤ fuel →
    (∀ n ∈ work, n.parent_station ≠ none) →
    (∀ n ∈ work, routeSuffixOpt n.node_id ≠ none) →
    2 ≤ (groupIds p work).length →
    intraLoop none nt transfer base fuel work prev es errs =
      Outcome.exn (PyErr.attributeError "agency") := by
  induction fuel with
  | zero =>
      intro work prev es errs p hlen hnn hsfx hgrp
      have hw : work = [] := List.length_eq_zero.mp (Nat.le_zero.mp hlen)
      subst hw
      simp [groupIds] at hgrp
  | succ f ih =>
      intro work prev es errs p hlen hnn hsfx hgrp
      cases work with
      | nil => simp [groupIds] at hgrp
      | cons h0 rest =>
          obtain ⟨nid, hps, uag⟩ := h0
          obtain ⟨p0, rfl⟩ : ∃ p0, hps = some p0 := by
            cases hps with
            | none => exact absurd rfl (hnn ⟨nid, none, uag⟩ (List.mem_cons_self _ _))
            | some p0 => exact ⟨p0, rfl⟩
          rw [intraLoop_step_some]
          set w0 : List Node := (⟨nid, some p0, uag⟩ : Node) :: rest with hw0def
          set cs : List String := groupIds p0 w0 with hcsdef
          set wd : List Node := w0.filter (fun n => decide (¬ n.parent_station = some p0))
            with hwddef
          have hsubwd : ∀ n ∈ wd, n ∈ w0 := fun n hn => (List.mem_filter.mp hn).1
          have hsfxcs : ∀ x ∈ cs, routeSuffixOpt x ≠ none := by
            intro x hx
            obtain ⟨n, hn, hidn⟩ := List.mem_map.mp (groupIds_sub x (hcsdef ▸ hx))
            rw [← hidn]
            exact hsfx n hn
          by_cases hlt : cs.length < 2
          · rw [if_pos hlt]
            have hne : p ≠ p0 := by
              intro hcontra
              subst hcontra
              rw [← hcsdef] at hgrp
              omega
            apply ih wd (some p0) es errs p ?_ ?_ ?_ ?_
            · have h1 : wd = rest.filter (fun n => decide (¬ n.parent_station = some p0)) := by
                rw [hwddef, hw0def, filter_cons_self_drop]
              have h2 := List.length_filter_le
                (fun n => decide (¬ n.parent_station = some p0)) rest
              have h4 : w0.length = rest.length + 1 := by rw [hw0def]; rfl
              have h3 : w0.length ≤ f + 1 := hlen
              rw [h1]
              omega
            · exact fun n hn => hnn n (hsubwd n hn)
            · exact fun n hn => hsfx n (hsubwd n hn)
            · rw [hwddef, groupIds_drop_other hne w0]
              exact hgrp
          · by_cases heq2 : cs.length = 2
            · rw [if_neg hlt, if_pos heq2,
                permutedEdges_none_agency nt (perm2_ne_nil (by omega))]
            · have hmapok : mapExcept
                  (fun pr => diffRouteWeight (lookupMtt transfer p0) base pr.1 pr.2)
                  (perm2 cs) =
                  Except.ok ((perm2 cs).map (fun pr =>
                    if routeSuffixD pr.1 ≠ routeSuffixD pr.2
                    then (lookupMtt transfer p0).getD base else base)) := by
                apply mapExcept_ok
                intro pr hpr
                obtain ⟨x, y⟩ := pr
                exact diffRouteWeight_ok _ _
                  (hsfxcs x (perm2_mem_sound _ hpr).1)
                  (hsfxcs y (perm2_mem_sound _ hpr).2)
              rw [if_neg hlt, if_neg heq2, hmapok]
              dsimp only
              rw [permutedEdges_none_agency nt (perm2_ne_nil (by omega))]

theorem interLoop_none_agency (nt : Option String) (nodes : List Node) (base : ℚ)
    (r : TransferRule) (rest : List TransferRule)
    (hsfx : ∀ n ∈ nodes, routeSuffixOpt n.node_id ≠ none)
    (hch : 2 ≤ (childrenOf nodes r).length) :
    interLoop none nt nodes base (r :: rest) =
      Except.error (PyErr.attributeError "agency") := by
  have hsfxch : ∀ x ∈ childrenOf nodes r, routeSuffixOpt x ≠ none := by
    intro x hx
    obtain ⟨n, hn, hid⟩ := List.mem_map.mp (childrenOf_sub x hx)
    rw [← hid]
    exact hsfx n hn
  have hmapok : mapExcept (fun pr => interRouteWeight r.min_transfer_time base pr.1 pr.2)
      (perm2 (childrenOf nodes r)) =
      Except.ok ((perm2 (childrenOf nodes r)).map (fun pr =>
        if routeSuffixD pr.1 ≠ routeSuffixD pr.2 then r.min_transfer_time else base)) := by
    apply mapExcept_ok
    intro pr hpr
    obtain ⟨x, y⟩ := pr
    exact interRouteWeight_ok _ _ (hsfxch x (perm2_mem_sound _ hpr).1)
      (hsfxch y (perm2_mem_sound _ hpr).2)
  show (match mapExcept (fun pr => interRouteWeight r.min_transfer_time base pr.1 pr.2)
      (perm2 (childrenOf nodes r)) with
    | Except.error e => Except.error e
    | Except.ok wts =>
      match permutedEdges none nt (perm2 (childrenOf nodes r)) wts with
      | Except.error e => Except.error e
      | Except.ok pe =>
        match interLoop none nt nodes base rest with
        | Except.error e => Except.error e
        | Except.ok more => Except.ok (pe ++ more)) = _
  rw [hmapok]
  dsimp only
  rw [permutedEdges_none_agency nt (perm2_ne_nil hch)]

/-- C3: `GtfsGraph.__init__` never assigns `self.agency`, `self.net_type` or
`self.feed_path`; `_permuted_edges` therefore raises an attribute-lookup
error on every non-empty permutation list, every intra- or inter-station
build that reaches a group of two or more child stations raises that error
instead of returning a transfer-edge table, and `build_transfer_edges` raises
it at its very first attribute read. -/
theorem unassigned_attrs_fail :
    (∀ (sched : List SEdge) (nodes : List Node),
      (initGtfsGraph sched nodes).agency = none ∧
      (initGtfsGraph sched nodes).net_type = none ∧
      (initGtfsGraph sched nodes).feed_path = none) ∧
    (∀ (nt : Option String) (permute : List (String × String)) (wts : List ℚ),
      permute ≠ [] →
      permutedEdges none nt permute wts = Except.error (PyErr.attributeError "agency")) ∧
    (∀ (nt : Option String) (transfer : List TransferRule) (base : ℚ)
        (nodes : List Node) (p : String),
      (∀ n ∈ nodes, n.parent_station ≠ none) →
      (∀ n ∈ nodes, routeSuffixOpt n.node_id ≠ none) →
      2 ≤ (groupIds p nodes).length →
      buildIntratransferEdges none nt transfer base nodes =
        Outcome.exn (PyErr.attributeError "agency")) ∧
    (∀ (nt : Option String) (nodes : List Node) (transfer : List TransferRule) (base : ℚ)
        (r : TransferRule) (rest : List TransferRule),
      (∀ n ∈ nodes, routeSuffixOpt n.node_id ≠ none) →
      transfer.filter (fun r2 => decide (¬ r2.from_stop_id = r2.to_stop_id)) = r :: rest →
      2 ≤ (childrenOf nodes r).length →
      buildIntertransferEdges none nt nodes transfer base =
        Except.error (PyErr.attributeError "agency")) ∧
    (∀ (sched : List SEdge) (nodes : List Node) (tf : List TransferRule),
      buildTransferEdges (initGtfsGraph sched nodes) tf =
        Outcome.exn (PyErr.attributeError "feed_path")) := by
  refine ⟨fun _ _ => ⟨rfl, rfl, rfl⟩, ?_, ?_, ?_, fun _ _ _ => rfl⟩
  · intro nt permute wts h
    exact permutedEdges_none_agency nt h wts
  · intro nt transfer base nodes p hnn hsfx hgrp
    exact intraLoop_none_agency nt transfer base (nodes.length + 1) nodes none [] [] p
      (Nat.le_succ _) hnn hsfx hgrp
  · intro nt nodes transfer base r rest hsfx hfil hch
    rw [buildIntertransferEdges, hfil]
    exact interLoop_none_agency nt nodes base r rest hsfx hch

/-- C3 witness: a three-node station group on the unassigned-attribute
instance raises the attribute-lookup error. -/
theorem unassigned_attrs_fail_witness :
    buildIntratransferEdges none (some "transit") [] 2
      [⟨"n1_X", some "SS", "m"⟩, ⟨"n2_Y", some "SS", "m"⟩, ⟨"n3_Z", some "SS", "m"⟩] =
      Outcome.exn (PyErr.attributeError "agency") :=
  unassigned_attrs_fail.2.2.1 (some "transit") [] 2
    [⟨"n1_X", some "SS", "m"⟩, ⟨"n2_Y", some "SS", "m"⟩, ⟨"n3_Z", some "SS", "m"⟩] "SS"
    (by decide) (by decide) (by decide)

/-- C4: the null-`parent_station` path of `_build_intratransfer_edges` does
not shunt the node and continue. With a null-parent node first in the table,
the drop statement reads the still-unbound local `parent_station` and raises
NameError; with a null-parent node reached after a processed group, the drop
(keyed on the previous group's station) removes nothing, the working set
never shrinks, and the loop never terminates for any amount of fuel. -/
theorem null_parent_no_progress :
    (buildIntratransferEdges (some "ag") (some "nt") [] 2 [⟨"z_Q", none, "ag"⟩] =
      Outcome.exn (PyErr.nameError "parent_station")) ∧
    (buildIntratransferEdges (some "ag") (some "nt") [] 2 exNullNodes = Outcome.diverge) ∧
    (∀ (fuel : Nat) (es : List TEdge) (errs : List Node),
      intraLoop (some "ag") (some "nt") [] 2 fuel [⟨"z_Q", none, "ag"⟩] (some "PP") es errs =
        Outcome.diverge) := by
  refine ⟨by decide, by decide, ?_⟩
  intro fuel
  induction fuel with
  | zero => intro es errs; rfl
  | succ f ihf =>
      intro es errs
      rw [intraLoop_step_none_stale]
      have hfil : (((⟨"z_Q", none, "ag"⟩ : Node) :: ([] : List Node)).filter
          (fun n => decide (¬ n.parent_station = some "PP"))) = [⟨"z_Q", none, "ag"⟩] := rfl
      rw [hfil]
      exact ihf es (errs ++ [⟨"z_Q", none, "ag"⟩])

/-- C2: `build_transfer_edges` can never reach the wait-time addition: it
reads the never-assigned `self.feed_path` first (an attribute-lookup error),
and even past that the estimator call site passes `self` as an extra
positional argument, a TypeError — so no invocation returns normally. -/
theorem build_transfer_edges_never_ok :
    (buildTransferEdges (initGtfsGraph [] []) [] =
      Outcome.exn (PyErr.attributeError "feed_path")) ∧
    (∀ (st : GtfsState) (tf : List TransferRule),
      isOkBuild (buildTransferEdges st tf) = false) := by
  refine ⟨rfl, ?_⟩
  intro st tf
  unfold buildTransferEdges
  cases st.feed_path with
  | none => rfl
  | some fp =>
      dsimp only
      cases hI : buildIntratransferEdges st.agency st.net_type
          (tf.map (fun r => { r with min_transfer_time := r.min_transfer_time / 60 })) 2
          st.nodes with
      | ok pr =>
          cases hJ : buildIntertransferEdges st.agency st.net_type st.nodes
              (tf.map (fun r => { r with min_transfer_time := r.min_transfer_time / 60 }))
              2 with
          | error e => rfl
          | ok l => rfl
      | exn e => rfl
      | diverge => rfl

/-- C5 (amended): `_expected_wait_times` treats a destination with no
scheduled in-edges by propagating the undefined mean as NaN (modelled `none`)
for that entry only — it raises no reported failure, does not coerce the
entry to zero, and still computes every other destination's half-mean wait
normally. -/
theorem wait_time_undefined_mean (sched : List SEdge) (tes : List TEdge) (i : Nat)
    (hi : i < tes.length) :
    (expectedWaitTimes sched tes).length = tes.length ∧
    ((sched.filter (fun e => decide (e.node_id_to = (tes.get ⟨i, hi⟩).node_id_to))) = [] →
      (expectedWaitTimes sched tes).get? i = some none ∧
      (expectedWaitTimes sched tes).get? i ≠ some (some 0)) ∧
    (∀ (w : ℚ) (l : List ℚ),
      (sched.filter (fun e => decide (e.node_id_to = (tes.get ⟨i, hi⟩).node_id_to))).map
        SEdge.weight = w :: l →
      (expectedWaitTimes sched tes).get? i =
        some (some ((w :: l).sum / ((w :: l).length : ℚ) / 2))) := by
  have hentry : (expectedWaitTimes sched tes).get? i =
      some ((pdMean ((sched.filter (fun e =>
        decide (e.node_id_to = (tes.get ⟨i, hi⟩).node_id_to))).map SEdge.weight)).map
        (fun m => m / 2)) := by
    unfold expectedWaitTimes
    rw [List.get?_map, List.get?_eq_get hi]
    rfl
  refine ⟨by simp [expectedWaitTimes], ?_, ?_⟩
  · intro hfil
    rw [hentry, hfil]
    exact ⟨rfl, by simp [pdMean]⟩
  · intro w l hfil
    rw [hentry, hfil]
    simp [pdMean]

/-- C5 witness: destination `x` has no scheduled in-edges, so its entry is
the NaN marker, not zero. -/
theorem wait_time_undefined_mean_witness :
    (expectedWaitTimes exSched exTrans).get? 0 = some none ∧
    (expectedWaitTimes exSched exTrans).get? 0 ≠ some (some 0) :=
  (wait_time_undefined_mean exSched exTrans 0 (by decide)).2.1 (by decide)

/-- C5 counterexample: for the transfer edge into `x` (no scheduled
in-edges), the estimator silently yields NaN (`none`) in its ordinary return
value and keeps computing the other entry — it raises no reported failure
tied to `x`. -/
theorem wait_time_silent_nan_counterexample :
    expectedWaitTimes exSched exTrans = [none, some (5 / 2)] := by
  simp [expectedWaitTimes, exSched, exTrans, pdMean]

theorem renameLoop_first_missing (old : List Node) :
    ∀ ids : List String,
    (∃ id ∈ ids, old.find? (fun n => decide (n.node_id = strIdxOf id)) = none) →
    ∃ id, id ∈ ids ∧ old.find? (fun n => decide (n.node_id = strIdxOf id)) = none ∧
      renameLoop old ids = Except.error (PyErr.keyError (strIdxOf id)) := by
  intro ids
  induction ids with
  | nil =>
      rintro ⟨id, hid, _⟩
      simp at hid
  | cons a rest ih =>
      rintro ⟨id, hid, hfind⟩
      cases hfa : old.find? (fun n => decide (n.node_id = strIdxOf a)) with
      | none =>
          exact ⟨a, List.mem_cons_self _ _, hfa, by simp [renameLoop, hfa]⟩
      | some n =>
          have hid' : id ∈ rest := by
            rcases List.mem_cons.mp hid with rfl | h
            · rw [hfa] at hfind
              cases hfind
            · exact h
          obtain ⟨id2, h2, hf2, hrun2⟩ := ih ⟨id, hid', hfind⟩
          exact ⟨id2, List.mem_cons_of_mem _ h2, hf2, by simp [renameLoop, hfa, hrun2]⟩

theorem renameLoop_ok_ids (old : List Node) :
    ∀ (ids : List String) (l : List Node),
    renameLoop old ids = Except.ok l → l.map Node.node_id = ids := by
  intro ids
  induction ids with
  | nil =>
      intro l h
      simp only [renameLoop] at h
      injection h with h'
      rw [← h']
      rfl
  | cons a rest ih =>
      intro l h
      simp only [renameLoop] at h
      cases hfa : old.find? (fun n => decide (n.node_id = strIdxOf a)) with
      | none => rw [hfa] at h; cases h
      | some n =>
          rw [hfa] at h
          cases hr : renameLoop old rest with
          | error e => rw [hr] at h; cases h
          | ok ns =>
              rw [hr] at h
              injection h with h'
              rw [← h']
              simp only [List.map_cons]
              rw [ih ns hr]

/-- C7: whenever some rewritten-edge endpoint's derived key matches no row of
the original node table, `_rename_nodes` fails loudly with a key-lookup error
naming that key; and whenever it does return a table, the table covers every
endpoint identifier — none is silently dropped. -/
theorem rename_nodes_fails_loudly (old : List Node) (edges : List REdge) :
    ((∃ id ∈ newNodeIds edges,
        old.find? (fun n => decide (n.node_id = strIdxOf id)) = none) →
      ∃ id, id ∈ newNodeIds edges ∧
        old.find? (fun n => decide (n.node_id = strIdxOf id)) = none ∧
        renameNodes old edges = Except.error (PyErr.keyError (strIdxOf id))) ∧
    (∀ l : List Node, renameNodes old edges = Except.ok l →
      l.map Node.node_id = newNodeIds edges) := by
  constructor
  · intro h
    exact renameLoop_first_missing old (newNodeIds edges) h
  · intro l h
    exact renameLoop_ok_ids old (newNodeIds edges) l h

/-- C7 witness: the endpoint `b_r_t` (key `b_t`) matches no original node, and
canonicalization raises the key error naming it. -/
theorem rename_nodes_fails_loudly_witness :
    ∃ id, id ∈ newNodeIds exBadEdges ∧
      exOldNodes.find? (fun n => decide (n.node_id = strIdxOf id)) = none ∧
      renameNodes exOldNodes exBadEdges = Except.error (PyErr.keyError (strIdxOf id)) :=
  (rename_nodes_fails_loudly exOldNodes exBadEdges).1 (by decide)

/-- C8: `_check_transfer` with a rule that references station `S2`, which is
absent from the node table's `parent_station` values: the containment test
correctly fails, but the drop result is assigned to a local that is
immediately discarded, and the original table — the row referencing the
missing station included — is what the function returns. -/
theorem check_transfer_keeps_bad_rows :
    (([⟨"n1", some "S1", "agx"⟩] : List Node).any
      (fun n => decide (n.parent_station = some "S2"))) = false ∧
    checkTransfer [⟨"n1", some "S1", "agx"⟩] [⟨"S1", "S2", 3 / 2⟩] =
      Except.ok (some [⟨"S1", "S2", 3 / 2⟩]) :=
  ⟨rfl, rfl⟩

theorem heapGet_heapSet :
    ∀ (h : List (List REdge)) (r : Nat) (v : List REdge),
    r < h.length → heapGet (heapSet h r v) r = v := by
  intro h
  induction h with
  | nil =>
      intro r v hr
      simp at hr
  | cons x xs ih =>
      intro r v hr
      cases r with
      | zero => rfl
      | succ k =>
          have hstep : heapGet (heapSet (x :: xs) (k + 1) v) (k + 1) =
              heapGet (heapSet xs k v) k := rfl
          rw [hstep]
          exact ih k v (by simpa using hr)

theorem renameEdgesHeap_get (h : List (List REdge)) (r : Nat) (hr : r < h.length) :
    heapGet (renameEdgesHeap h r) r =
      (heapGet h r).map (fun e => renameEdgeTo (renameEdgeFrom e)) := by
  unfold renameEdgesHeap
  have hlen : (heapSet h r ((heapGet h r).map renameEdgeFrom)).length = h.length := by
    simp [heapSet]
  rw [heapGet_heapSet _ _ _ (by rw [hlen]; exact hr),
    heapGet_heapSet _ _ _ hr, List.map_map]
  rfl

/-- C9 (amended): the canonicalization stage mutates the pre-existing edge
table object in place — after `restructure_graph` the object the instance
referenced before the stage holds the endpoint-renamed rows, not the original
ones — while the node table is a freshly derived sequence covering exactly
the rewritten endpoints (the prior node list value is not modified;
`self.nodes` is rebound to the new table). -/
theorem restructure_rewrites_edges_in_place (h : List (List REdge)) (g : GraphObj)
    (h2 : List (List REdge)) (g2 : GraphObj)
    (hr : g.edgesRef < h.length)
    (hok : restructureGraph h g = Except.ok (h2, g2)) :
    heapGet h2 g.edgesRef =
      (heapGet h g.edgesRef).map (fun e => renameEdgeTo (renameEdgeFrom e)) ∧
    g2.edgesRef = g.edgesRef ∧
    renameNodes g.nodes (heapGet h2 g.edgesRef) = Except.ok g2.nodes ∧
    g2.nodes.map Node.node_id = newNodeIds (heapGet h2 g.edgesRef) := by
  unfold restructureGraph at hok
  dsimp only at hok
  cases hrn : renameNodes g.nodes (heapGet (renameEdgesHeap h g.edgesRef) g.edgesRef) with
  | error e =>
      rw [hrn] at hok
      cases hok
  | ok newNodes =>
      rw [hrn] at hok
      dsimp only at hok
      injection hok with hpair
      have hp := hpair
      rw [Prod.mk.injEq] at hp
      obtain ⟨hh, hg⟩ := hp
      subst hh
      subst hg
      refine ⟨renameEdgesHeap_get h g.edgesRef hr, rfl, hrn, ?_⟩
      exact renameLoop_ok_ids g.nodes _ newNodes hrn

/-- C9 witness: the one-object store, rewritten in place by the stage. -/
theorem restructure_rewrites_edges_in_place_witness :
    heapGet [[⟨"sta_r9_stop", "sta_r9_stop2", "ag1", "r9", 4⟩]] 0 =
      (heapGet exHeap 0).map (fun e => renameEdgeTo (renameEdgeFrom e)) ∧
    (⟨0, [⟨"sta_r9_stop", some "P", "ag1"⟩,
      ⟨"sta_r9_stop2", some "P", "ag1"⟩]⟩ : GraphObj).edgesRef = exGraph.edgesRef ∧
    renameNodes exGraph.nodes
        (heapGet [[⟨"sta_r9_stop", "sta_r9_stop2", "ag1", "r9", 4⟩]] 0) =
      Except.ok (⟨0, [⟨"sta_r9_stop", some "P", "ag1"⟩,
        ⟨"sta_r9_stop2", some "P", "ag1"⟩]⟩ : GraphObj).nodes ∧
    ((⟨0, [⟨"sta_r9_stop", some "P", "ag1"⟩,
      ⟨"sta_r9_stop2", some "P", "ag1"⟩]⟩ : GraphObj).nodes).map Node.node_id =
      newNodeIds (heapGet [[⟨"sta_r9_stop", "sta_r9_stop2", "ag1", "r9", 4⟩]] 0) :=
  restructure_rewrites_edges_in_place exHeap exGraph
    [[⟨"sta_r9_stop", "sta_r9_stop2", "ag1", "r9", 4⟩]]
    ⟨0, [⟨"sta_r9_stop", some "P", "ag1"⟩, ⟨"sta_r9_stop2", some "P", "ag1"⟩]⟩
    (by decide) rfl

/-- C9 counterexample: after the stage runs, the edge-table object that
existed before the stage holds renamed rows; its pre-existing rows are not
left unchanged. -/
theorem restructure_in_place_counterexample :
    restructureGraph exHeap exGraph =
      Except.ok ([[⟨"sta_r9_stop", "sta_r9_stop2", "ag1", "r9", 4⟩]],
        ⟨0, [⟨"sta_r9_stop", some "P", "ag1"⟩, ⟨"sta_r9_stop2", some "P", "ag1"⟩]⟩) ∧
    heapGet [[⟨"sta_r9_stop", "sta_r9_stop2", "ag1", "r9", 4⟩]] 0 ≠ heapGet exHeap 0 :=
  ⟨rfl, by decide⟩

theorem count_map_ekey (edges : List TEdge) (k : EKey) :
    (edges.map ekey).count k = (edges.filter (fun e => decide (ekey e = k))).length := by
  induction edges with
  | nil => rfl
  | cons e rest ih =>
      by_cases he : ekey e = k
      · simp [List.count_cons, List.filter_cons, he, ih]
      · simp [List.count_cons, List.filter_cons, he, ih]

theorem single_groups_nodup (edges : List TEdge)
    (h : ∀ e ∈ edges, (edges.filter (fun x => decide (ekey x = ekey e))).length = 1) :
    (edges.map ekey).Nodup := by
  rw [List.nodup_iff_count_le_one]
  intro k
  by_cases hk : k ∈ edges.map ekey
  · obtain ⟨e, he, rfl⟩ := List.mem_map.mp hk
    rw [count_map_ekey, h e he]
  · rw [List.count_eq_zero_of_not_mem hk]
    omega

theorem single_group_filter (edges : List TEdge) {e : TEdge} (he : e ∈ edges)
    (h1 : (edges.filter (fun x => decide (ekey x = ekey e))).length = 1) :
    edges.filter (fun x => decide (ekey x = ekey e)) = [e] := by
  have hmem : e ∈ edges.filter (fun x => decide (ekey x = ekey e)) :=
    List.mem_filter.mpr ⟨he, decide_eq_true rfl⟩
  cases hfil : edges.filter (fun x => decide (ekey x = ekey e)) with
  | nil =>
      rw [hfil] at hmem
      simp at hmem
  | cons a l =>
      rw [hfil] at h1 hmem
      have hl : l = [] := by
        simp only [List.length_cons] at h1
        exact List.length_eq_zero.mp (by omega)
      subst hl
      have hea : e = a := by simpa using hmem
      rw [hea]

/-- C10: on an edge table in which every grouping key occurs exactly once,
the Edge Aggregator is idempotent: the output has one row per input row, each
input row reappears with its key, its unchanged weight, and a trip count of
1, and nothing else appears. -/
theorem averaged_edges_idempotent (edges : List TEdge)
    (h : ∀ e ∈ edges, (edges.filter (fun x => decide (ekey x = ekey e))).length = 1) :
    (averagedEdges edges).length = edges.length ∧
    (∀ e ∈ edges,
      ({ key := ekey e, total_trips := 1, weight := e.weight } : ARow) ∈
        averagedEdges edges) ∧
    (∀ row ∈ averagedEdges edges, ∃ e ∈ edges,
      row = { key := ekey e, total_trips := 1, weight := e.weight }) := by
  have hnd := single_groups_nodup edges h
  have hded : (edges.map ekey).dedup = edges.map ekey := List.dedup_eq_self.mpr hnd
  have hmap : averagedEdges edges = edges.map (fun e =>
      { key := ekey e, total_trips := 1, weight := e.weight }) := by
    unfold averagedEdges
    rw [hded, List.map_map]
    apply List.map_congr_left
    intro e he
    have hfil := single_group_filter edges he (h e he)
    simp only [Function.comp, hfil]
    simp [List.sum_cons]
  rw [hmap]
  refine ⟨by simp, ?_, ?_⟩
  · intro e he
    exact List.mem_map.mpr ⟨e, he, rfl⟩
  · intro row hrow
    obtain ⟨e, he, hrw⟩ := List.mem_map.mp hrow
    exact ⟨e, he, hrw.symm⟩

/-- C10 witness: re-aggregating a two-row table with distinct keys returns
both rows unchanged with trip count 1. -/
theorem averaged_edges_idempotent_witness :
    (averagedEdges exAggEdges).length = exAggEdges.length ∧
    (∀ e ∈ exAggEdges,
      ({ key := ekey e, total_trips := 1, weight := e.weight } : ARow) ∈
        averagedEdges exAggEdges) ∧
    (∀ row ∈ averagedEdges exAggEdges, ∃ e ∈ exAggEdges,
      row = { key := ekey e, total_trips := 1, weight := e.weight }) :=
  averaged_edges_idempotent exAggEdges (by decide)
